import Mathlib

/-!
Verification development for the querydb tool (querydb/querydb.py).

The tool refreshes a whitespace-separated stations.list file from a database
view.  We embed the formatting / normalization / schema-resolution core as
executable Lean functions over lists of characters:

* strings are modeled as List Char (ASCII; the Python code only manipulates
  ASCII metacharacters: the whitespace class, the sentinel character,
  the allow-list pattern and lower-casing of ASCII letters);
* database cells are modeled as text-or-null (DBVal); the numeric values
  returned by the driver reach the formatting code through str(), i.e. as
  text, which this type captures;
* the file-writing step is modeled as an explicit trace of file operations
  over a two-file state (the temporary sibling file and the target file),
  with Path.replace modeled as an atomic rename, per its documented
  semantics.
-/

namespace QueryDb

/-- Sentinel character used to encode internal whitespace (SPACE_ENC in the
source). -/
def SPACE_ENC : Char := '|'

/-- Whitespace class of the regular expressions and of str.strip in the
source, restricted to ASCII: space, tab, newline, carriage return, vertical
tab, form feed. -/
def isSpace (c : Char) : Bool :=
  c = ' ' || c = '\t' || c = '\n' || c = '\r' || c = '\x0b' || c = '\x0c'

/-- Convenience conversion from Lean string literals to the List Char
representation used throughout. -/
def lit (s : String) : List Char := s.toList

/-- ASCII lower-casing, as used by str.lower in the source. -/
def lowerList (l : List Char) : List Char := l.map Char.toLower

/-- Removal of leading whitespace (the left half of str.strip). -/
def stripStart (l : List Char) : List Char := l.dropWhile isSpace

/-- Removal of trailing whitespace (the right half of str.strip). -/
def stripEnd : List Char → List Char
  | [] => []
  | c :: rest =>
    match stripEnd rest with
    | [] => if isSpace c then [] else [c]
    | r => c :: r

/-- str.strip of the source: remove leading and trailing whitespace. -/
def pyStrip (l : List Char) : List Char := stripEnd (stripStart l)

/-- Embedding of re.sub applied with pattern \s+ and replacement SPACE_ENC:
every maximal run of whitespace becomes a single sentinel character (the
sentinel is emitted at the last character of the run; since the whole run
collapses to one character the output is the same as the regex
substitution). -/
def subSpaceRuns : List Char → List Char
  | [] => []
  | [c] => if isSpace c then [SPACE_ENC] else [c]
  | c1 :: c2 :: rest =>
    if isSpace c1 then
      if isSpace c2 then subSpaceRuns (c2 :: rest)
      else SPACE_ENC :: subSpaceRuns (c2 :: rest)
    else c1 :: subSpaceRuns (c2 :: rest)

/-- The null keyword recognized (case-insensitively) by normalize_token. -/
def nullLit : List Char := lit "null"

/-- Embedding of normalize_token from the source: None, whitespace-only and
null-keyword inputs yield the default verbatim; otherwise the trimmed input
with every internal whitespace run replaced by the sentinel. -/
def normalize_token (s : Option (List Char)) (dflt : List Char) : List Char :=
  match s with
  | none => dflt
  | some s0 =>
    let s1 := pyStrip s0
    if s1 = [] ∨ lowerList s1 = nullLit then dflt
    else subSpaceRuns s1

/-- A database cell: SQL NULL or a textual value.  Numeric driver values
reach the formatting code through str(), i.e. as text.  (The source also
accepts an already-tripled list/tuple ECEF cell in parse_ecef_xyz; that
structured-cell branch lies outside this text-or-null cell model.) -/
inductive DBVal where
  | null : DBVal
  | str : List Char → DBVal

/-- View of a cell as the optional string that the source passes to
normalize_token. -/
def dbOpt : DBVal → Option (List Char)
  | DBVal.null => none
  | DBVal.str s => some s

/-- Embedding of format_float: None becomes the empty string, any other
value is stringified and trimmed. -/
def format_float : DBVal → List Char
  | DBVal.null => []
  | DBVal.str s => pyStrip s

/-- Fractional part of the float pattern: the greedy optional group
matching a dot followed by one or more digits.  Returns the matched text
and the remaining input. -/
def matchFrac : List Char → List Char × List Char
  | [] => ([], [])
  | c :: r =>
    if c = '.' then
      match r.takeWhile Char.isDigit with
      | [] => ([], c :: r)
      | d :: ds => ('.' :: d :: ds, r.dropWhile Char.isDigit)
    else ([], c :: r)

/-- Exponent part of the float pattern: the greedy optional group matching
e or E, an optional sign, and one or more digits; if no digits follow, the
group matches nothing (regex backtracking). -/
def matchExp : List Char → List Char × List Char
  | [] => ([], [])
  | [c] => ([], [c])
  | e :: s :: r =>
    if e = 'e' ∨ e = 'E' then
      if s = '-' ∨ s = '+' then
        match r.takeWhile Char.isDigit with
        | [] => ([], e :: s :: r)
        | d :: ds => (e :: s :: d :: ds, r.dropWhile Char.isDigit)
      else
        match (s :: r).takeWhile Char.isDigit with
        | [] => ([], e :: s :: r)
        | d :: ds => (e :: d :: ds, (s :: r).dropWhile Char.isDigit)
    else ([], e :: s :: r)

/-- Integer-and-tail part of the float pattern after the optional sign has
been consumed: one or more digits, then the optional fraction and exponent
groups. -/
def matchAfterSign (sgn l1 : List Char) : Option (List Char × List Char) :=
  match l1.takeWhile Char.isDigit with
  | [] => none
  | d :: ds =>
    let l2 := l1.dropWhile Char.isDigit
    let fr := matchFrac l2
    let ex := matchExp fr.2
    some (sgn ++ (d :: ds) ++ fr.1 ++ ex.1, ex.2)

/-- Attempt to match the FLOAT_RE pattern of the source anchored at the
start of the input: an optional sign, one or more digits, an optional
fraction, an optional exponent.  Greedy matching gives the longest match
at this position, exactly as the backtracking regex engine does. -/
def matchFloatAt : List Char → Option (List Char × List Char)
  | [] => none
  | c :: rest =>
    if c = '-' ∨ c = '+' then matchAfterSign [c] rest
    else matchAfterSign [] (c :: rest)

/-- Scanning loop of re.findall: at each position, emit the match starting
there and resume after it, or advance one character.  The fuel argument is
the length of the initial input; each step consumes at least one character
(a match always contains a digit), so the fuel never runs out. -/
def findFloatsAux : Nat → List Char → List (List Char)
  | 0, _ => []
  | _ + 1, [] => []
  | fuel + 1, c :: rest =>
    match matchFloatAt (c :: rest) with
    | some (m, r) => m :: findFloatsAux fuel r
    | none => findFloatsAux fuel rest

/-- All non-overlapping FLOAT_RE matches of the input, left to right
(re.findall in the source). -/
def findFloats (l : List Char) : List (List Char) := findFloatsAux l.length l

/-- Embedding of parse_ecef_xyz on text-or-null cells: None yields None,
otherwise the first three numeric tokens found anywhere in the text, or
None when fewer than three are found. -/
def parse_ecef_xyz : DBVal → Option (List Char × List Char × List Char)
  | DBVal.null => none
  | DBVal.str s =>
    match findFloats s with
    | a :: b :: c :: _ => some (a, b, c)
    | _ => none

/-- Character class of the safe_ident allow-list pattern: ASCII letters,
digits, underscore, dot, comma, whitespace. -/
def allowedChar (c : Char) : Bool :=
  c.isAlpha || c.isDigit || c == '_' || c == '.' || c == ',' || isSpace c

/-- Embedding of safe_ident: re.fullmatch against one-or-more allow-listed
characters; failure raises ValueError, modeled as the error value carrying
the description and the offending string. -/
def safe_ident (s what : List Char) : Except (List Char × List Char) (List Char) :=
  if s ≠ [] ∧ s.all allowedChar = true then Except.ok s
  else Except.error (what, s)

/-- The configuration snapshot built by load_config.  Connection parameters
(host, port, database, user, password, sslmode) and the output path belong
to the external database / filesystem boundary and carry no formatting
logic, so they are not modeled. -/
structure Config where
  view : List Char
  where_sql : Option (List Char)
  order_by : List Char
  interval_s : Int
  ant_h_default : List Char
  ant_e_default : List Char
  ant_n_default : List Char
  once : Bool
  mode : List Char

/-- The raw environment-derived settings entering load_config, after the
env helper has applied its own defaults (the env helper itself is external
input handling). -/
structure RawSettings where
  view : List Char
  where_sql : Option (List Char)
  order_by : List Char
  interval_s : Int
  ant_h_default : List Char
  ant_e_default : List Char
  ant_n_default : List Char
  once : Bool
  mode : List Char

def autoLit : List Char := lit "auto"

def modernLit : List Char := lit "station_list_source"

def legacyLit : List Char := lit "etat_antennes4"

/-- Embedding of load_config: normalize the mode (lower-case, falling back
to auto for unknown values), validate view and order-by through safe_ident,
clamp the interval to at least 60 seconds. -/
def load_config (raw : RawSettings) : Except (List Char × List Char) Config :=
  let m0 := lowerList raw.mode
  let mode := if m0 = autoLit ∨ m0 = modernLit ∨ m0 = legacyLit then m0 else autoLit
  match safe_ident raw.view (lit "QUERYDB_VIEW") with
  | Except.error e => Except.error e
  | Except.ok v =>
    match safe_ident raw.order_by (lit "QUERYDB_ORDER_BY") with
    | Except.error e => Except.error e
    | Except.ok ob =>
      let i : Int := if raw.interval_s < 60 then 60 else raw.interval_s
      Except.ok (Config.mk v raw.where_sql ob i raw.ant_h_default raw.ant_e_default
        raw.ant_n_default raw.once mode)

/-- Case-insensitive suffix check: the source lower-cases the view name and
calls endswith with an all-lower-case literal. -/
def endsWithLC (l suff : List Char) : Bool :=
  if suff.length ≤ l.length then decide (l.drop (l.length - suff.length) = suff)
  else false

/-- Embedding of is_station_list_source_view: explicit mode wins, auto
classifies by the view-name suffix. -/
def is_station_list_source_view (cfg : Config) : Bool :=
  if cfg.mode = modernLit then true
  else if cfg.mode = legacyLit then false
  else endsWithLC (lowerList cfg.view) modernLit

/-- Join the eleven formatted fields with single spaces, as the output
f-string of the source does. -/
def joinSpace : List (List Char) → List Char
  | [] => []
  | [f] => f
  | f :: g :: rest => f ++ ' ' :: joinSpace (g :: rest)

/-- The eleven formatted fields of the modern (station_list_source) branch
of write_station_list, in output order. -/
def modernFields (cfg : Config) (mp ri x y z rt rv at0 ah ae an : DBVal) :
    List (List Char) :=
  let mp_t := normalize_token (dbOpt mp) []
  let ri_t := normalize_token (dbOpt ri) mp_t
  [mp_t, ri_t, format_float x, format_float y, format_float z,
   normalize_token (dbOpt rt) (lit "UNKNOWN"),
   normalize_token (dbOpt rv) (lit "UNKNOWN"),
   normalize_token (dbOpt at0) (lit "NONE|NONE"),
   normalize_token (dbOpt ah) cfg.ant_h_default,
   normalize_token (dbOpt ae) cfg.ant_e_default,
   normalize_token (dbOpt an) cfg.ant_n_default]

/-- The eleven formatted fields of the legacy (etat_antennes4) branch of
write_station_list, in output order: coordinates derived from the combined
ECEF cell (empty on parse failure), antenna offsets taken directly from the
configured defaults. -/
def legacyFields (cfg : Config) (mp ri ecef rc vr an : DBVal) :
    List (List Char) :=
  let mp_t := normalize_token (dbOpt mp) []
  let ri_t := normalize_token (dbOpt ri) mp_t
  let xyz : List Char × List Char × List Char :=
    match parse_ecef_xyz ecef with
    | none => ([], [], [])
    | some t => t
  [mp_t, ri_t, xyz.1, xyz.2.1, xyz.2.2,
   normalize_token (dbOpt rc) (lit "UNKNOWN"),
   normalize_token (dbOpt vr) (lit "UNKNOWN"),
   normalize_token (dbOpt an) (lit "NONE|NONE"),
   cfg.ant_h_default, cfg.ant_e_default, cfg.ant_n_default]

/-- Per-row dispatch of the write loop in write_station_list: a row with at
least 11 columns under the modern schema takes the modern branch; otherwise
a row with fewer than 6 columns is skipped; otherwise the first six columns
take the legacy branch. -/
def formatRowFields (cfg : Config) (row : List DBVal) :
    Option (List (List Char)) :=
  if 11 ≤ row.length ∧ is_station_list_source_view cfg = true then
    match row with
    | c0 :: c1 :: c2 :: c3 :: c4 :: c5 :: c6 :: c7 :: c8 :: c9 :: c10 :: _ =>
      some (modernFields cfg c0 c1 c2 c3 c4 c5 c6 c7 c8 c9 c10)
    | _ => none
  else if row.length < 6 then none
  else
    match row with
    | c0 :: c1 :: c2 :: c3 :: c4 :: c5 :: _ =>
      some (legacyFields cfg c0 c1 c2 c3 c4 c5)
    | _ => none

/-- The write loop of write_station_list: accumulate one output line and
one count increment per formatted row, in input order; skipped rows
contribute neither. -/
def writeRowsAux (cfg : Config) : List (List DBVal) → List (List Char) → Nat →
    List (List Char) × Nat
  | [], acc, count => (acc, count)
  | row :: rest, acc, count =>
    match formatRowFields cfg row with
    | some fs => writeRowsAux cfg rest (acc ++ [joinSpace fs]) (count + 1)
    | none => writeRowsAux cfg rest acc count

/-- The data lines written for a batch of rows. -/
def dataLines (cfg : Config) (rows : List (List DBVal)) : List (List Char) :=
  (writeRowsAux cfg rows [] 0).1

/-- The count returned by write_station_list for a batch of rows. -/
def write_station_list_count (cfg : Config) (rows : List (List DBVal)) : Nat :=
  (writeRowsAux cfg rows [] 0).2

/-- The comment-header block written before the data lines, with the
timestamp argument standing for the now_utc_iso value. -/
def headerLines (cfg : Config) (ts : List Char) : List (List Char) :=
  [lit "# stations.list (auto-generated)",
   lit "# generated_at_utc=" ++ ts,
   lit "# source=" ++ cfg.view,
   lit "# mode=" ++ cfg.mode] ++
  (match cfg.where_sql with
   | some w => [lit "# where=" ++ w]
   | none => []) ++
  [lit "#",
   lit "# Token encoding: internal spaces in REC_TYPE/REC_VER/ANT_TYPE are written as \x27|\x27",
   lit "# Decoding is handled by the converters when writing RINEX headers.",
   lit "#",
   lit "# <MOUNTPOINT> <RINEX_ID> <X> <Y> <Z> <REC_TYPE> <REC_VER> <ANT_TYPE> <ANT_H> <ANT_E> <ANT_N>"]

def nlChar : Char := '\n'

/-- The complete text written for one refresh cycle: header lines then data
lines, each newline-terminated. -/
def fileContent (cfg : Config) (ts : List Char) (rows : List (List DBVal)) :
    List Char :=
  ((headerLines cfg ts ++ dataLines cfg rows).map (fun l => l ++ [nlChar])).flatten

/-- One file operation of the write path: truncating open of the temporary
sibling file, a write appended to it, or the atomic rename of the temporary
file over the target (Path.replace). -/
inductive FileOp where
  | openTruncTmp : FileOp
  | writeTmp : List Char → FileOp
  | replaceTmpOut : FileOp

/-- The two files write_station_list touches: the temporary sibling path
and the target path (each either absent or holding some content). -/
structure FS where
  tmpFile : Option (List Char)
  outFile : Option (List Char)

/-- Effect of one file operation on the two-file state.  Only the final
rename touches the target file. -/
def stepFS (st : FS) (op : FileOp) : FS :=
  match op with
  | FileOp.openTruncTmp => FS.mk (some []) st.outFile
  | FileOp.writeTmp s =>
    match st.tmpFile with
    | none => st
    | some t => FS.mk (some (t ++ s)) st.outFile
  | FileOp.replaceTmpOut => FS.mk none st.tmpFile

/-- Execution of a list of file operations. -/
def runFS (st : FS) (ops : List FileOp) : FS := ops.foldl stepFS st

/-- The operation trace of write_station_list: open the temporary file,
write every header and data line into it, then atomically rename it over
the target. -/
def write_station_list_ops (cfg : Config) (ts : List Char)
    (rows : List (List DBVal)) : List FileOp :=
  FileOp.openTruncTmp ::
    ((headerLines cfg ts ++ dataLines cfg rows).map
      (fun l => FileOp.writeTmp (l ++ [nlChar]))) ++ [FileOp.replaceTmpOut]


/-- Specification-side decomposition of a string into its maximal
whitespace-free words, in order: whitespace runs separate words and
contribute nothing themselves.  Used to state what the sentinel
substitution achieves. -/
def wordsSpec : List Char → List (List Char)
  | [] => []
  | [c] => if isSpace c then [] else [[c]]
  | c1 :: c2 :: rest =>
    if isSpace c1 then wordsSpec (c2 :: rest)
    else if isSpace c2 then [c1] :: wordsSpec (c2 :: rest)
    else
      match wordsSpec (c2 :: rest) with
      | [] => [[c1]]
      | w :: ws => (c1 :: w) :: ws

/-- Specification-side join of words with a single sentinel character
between consecutive words. -/
def sentinelJoin : List (List Char) → List Char
  | [] => []
  | [w] => w
  | w :: w2 :: ws => w ++ SPACE_ENC :: sentinelJoin (w2 :: ws)

/-- True when the list does not start with a whitespace character. -/
def headNotSpace : List Char → Bool
  | [] => true
  | c :: _ => !(isSpace c)

/-- True when the list does not end with a whitespace character. -/
def lastNotSpace : List Char → Bool
  | [] => true
  | [c] => !(isSpace c)
  | _ :: c2 :: rest => lastNotSpace (c2 :: rest)

theorem lastNotSpace_cons_cons (a b : Char) (r : List Char) :
    lastNotSpace (a :: b :: r) = lastNotSpace (b :: r) := rfl

theorem wordsSpec_ne_nil :
    ∀ l : List Char, lastNotSpace l = true → l ≠ [] → wordsSpec l ≠ []
  | [], _, hne => absurd rfl hne
  | [c], h, _ => by
    simp only [lastNotSpace, Bool.not_eq_true'] at h
    simp [wordsSpec, h]
  | c1 :: c2 :: rest, h, _ => by
    have ih := wordsSpec_ne_nil (c2 :: rest)
      (by rw [lastNotSpace_cons_cons] at h; exact h) (by simp)
    cases h1 : isSpace c1 with
    | true => simpa [wordsSpec, h1] using ih
    | false =>
      cases h2 : isSpace c2 with
      | true => simp [wordsSpec, h1, h2]
      | false =>
        cases hw : wordsSpec (c2 :: rest) <;> simp [wordsSpec, h1, h2, hw]

theorem subSpaceRuns_join_aux :
    ∀ n : Nat, ∀ l : List Char, l.length ≤ n → lastNotSpace l = true →
      (headNotSpace l = true → subSpaceRuns l = sentinelJoin (wordsSpec l)) ∧
      (headNotSpace l = false →
        subSpaceRuns l = SPACE_ENC :: sentinelJoin (wordsSpec l)) := by
  intro n
  induction n with
  | zero =>
    intro l hlen _
    have hl : l = [] := List.eq_nil_of_length_eq_zero (Nat.le_zero.mp hlen)
    subst hl
    exact ⟨fun _ => rfl, fun h => by simp [headNotSpace] at h⟩
  | succ n ih =>
    intro l hlen hlast
    match l with
    | [] => exact ⟨fun _ => rfl, fun h => by simp [headNotSpace] at h⟩
    | [c] =>
      have hc : isSpace c = false := by
        simpa [lastNotSpace, Bool.not_eq_true'] using hlast
      refine ⟨fun _ => ?_, fun h => ?_⟩
      · simp [subSpaceRuns, wordsSpec, sentinelJoin, hc]
      · simp [headNotSpace, hc] at h
    | c1 :: c2 :: rest =>
      have hlen2 : (c2 :: rest).length ≤ n := by
        simp only [List.length_cons] at hlen ⊢; omega
      have hlast2 : lastNotSpace (c2 :: rest) = true := hlast
      have IH := ih (c2 :: rest) hlen2 hlast2
      cases h1 : isSpace c1 with
      | true =>
        refine ⟨fun hh => ?_, fun _ => ?_⟩
        · simp [headNotSpace, h1] at hh
        · cases h2 : isSpace c2 with
          | true =>
            have hrec := IH.2 (by simp [headNotSpace, h2])
            simpa [subSpaceRuns, wordsSpec, h1, h2] using hrec
          | false =>
            have hrec := IH.1 (by simp [headNotSpace, h2])
            simp [subSpaceRuns, wordsSpec, h1, h2, hrec]
      | false =>
        refine ⟨fun _ => ?_, fun hh => ?_⟩
        · have hne : wordsSpec (c2 :: rest) ≠ [] :=
            wordsSpec_ne_nil _ hlast2 (by simp)
          cases h2 : isSpace c2 with
          | true =>
            have hrec := IH.2 (by simp [headNotSpace, h2])
            cases hw : wordsSpec (c2 :: rest) with
            | nil => exact absurd hw hne
            | cons w ws =>
              rw [hw] at hrec
              simp [subSpaceRuns, wordsSpec, h1, h2, hrec, hw, sentinelJoin]
          | false =>
            have hrec := IH.1 (by simp [headNotSpace, h2])
            cases hw : wordsSpec (c2 :: rest) with
            | nil => exact absurd hw hne
            | cons w ws =>
              rw [hw] at hrec
              cases ws with
              | nil => simp [subSpaceRuns, wordsSpec, h1, h2, hw, hrec, sentinelJoin]
              | cons w2 ws2 =>
                simp [subSpaceRuns, wordsSpec, h1, h2, hw, hrec, sentinelJoin]
        · simp [headNotSpace, h1] at hh

theorem wordsSpec_flatten :
    ∀ l : List Char, (wordsSpec l).flatten = l.filter (fun c => !(isSpace c))
  | [] => rfl
  | [c] => by cases h : isSpace c <;> simp [wordsSpec, h, List.filter_cons]
  | c1 :: c2 :: rest => by
    have ih := wordsSpec_flatten (c2 :: rest)
    cases h1 : isSpace c1 with
    | true => simp [wordsSpec, h1, ih, List.filter_cons]
    | false =>
      cases h2 : isSpace c2 with
      | true => simp [wordsSpec, h1, h2, ih, List.filter_cons]
      | false =>
        cases hw : wordsSpec (c2 :: rest) with
        | nil =>
          rw [hw] at ih
          simp only [List.flatten_nil] at ih
          simp [wordsSpec, h1, h2, hw, List.filter_cons, ← ih]
        | cons w ws =>
          rw [hw] at ih
          simp [wordsSpec, h1, h2, hw, List.filter_cons, ← ih]

theorem wordsSpec_words_ok :
    ∀ l : List Char, ∀ w ∈ wordsSpec l, w ≠ [] ∧ ∀ c ∈ w, isSpace c = false
  | [] => by simp [wordsSpec]
  | [c] => by
    cases h : isSpace c with
    | true => simp [wordsSpec, h]
    | false => simp [wordsSpec, h]
  | c1 :: c2 :: rest => by
    have ih := wordsSpec_words_ok (c2 :: rest)
    cases h1 : isSpace c1 with
    | true => simpa [wordsSpec, h1] using ih
    | false =>
      cases h2 : isSpace c2 with
      | true =>
        intro w hw
        simp [wordsSpec, h1, h2] at hw
        rcases hw with rfl | hw2
        · exact ⟨by simp, by intro c hc; simp at hc; subst hc; exact h1⟩
        · exact ih w hw2
      | false =>
        intro w hw
        cases hww : wordsSpec (c2 :: rest) with
        | nil =>
          simp [wordsSpec, h1, h2, hww] at hw
          subst hw
          exact ⟨by simp, by intro c hc; simp at hc; subst hc; exact h1⟩
        | cons w0 ws =>
          simp [wordsSpec, h1, h2, hww] at hw
          rcases hw with rfl | hw2
          · have h0 := ih w0 (by rw [hww]; exact List.mem_cons_self w0 ws)
            refine ⟨by simp, ?_⟩
            intro c hc
            rcases List.mem_cons.mp hc with rfl | hc2
            · exact h1
            · exact h0.2 c hc2
          · exact ih w (by rw [hww]; exact List.mem_cons_of_mem w0 hw2)


theorem headNotSpace_dropWhile :
    ∀ l : List Char, headNotSpace (l.dropWhile isSpace) = true
  | [] => rfl
  | c :: rest => by
    cases h : isSpace c with
    | true => simpa [List.dropWhile_cons, h] using headNotSpace_dropWhile rest
    | false => simp [List.dropWhile_cons, h, headNotSpace]

theorem stripEnd_headNotSpace :
    ∀ l : List Char, headNotSpace l = true → headNotSpace (stripEnd l) = true
  | [], _ => rfl
  | c :: rest, h => by
    have hc : isSpace c = false := by
      simpa [headNotSpace, Bool.not_eq_true'] using h
    cases hr : stripEnd rest with
    | nil => simp [stripEnd, hr, hc, headNotSpace]
    | cons a r => simp [stripEnd, hr, headNotSpace, hc]

theorem stripEnd_lastNotSpace :
    ∀ l : List Char, lastNotSpace (stripEnd l) = true
  | [] => rfl
  | c :: rest => by
    have ih := stripEnd_lastNotSpace rest
    cases hr : stripEnd rest with
    | nil => cases hc : isSpace c <;> simp [stripEnd, hr, hc, lastNotSpace]
    | cons a r =>
      rw [hr] at ih
      simpa [stripEnd, hr, lastNotSpace_cons_cons] using ih

theorem pyStrip_headNotSpace (l : List Char) : headNotSpace (pyStrip l) = true :=
  stripEnd_headNotSpace _ (headNotSpace_dropWhile l)

theorem pyStrip_lastNotSpace (l : List Char) : lastNotSpace (pyStrip l) = true :=
  stripEnd_lastNotSpace _

theorem filter_dropWhile_space :
    ∀ l : List Char, (l.dropWhile isSpace).filter (fun c => !(isSpace c)) =
      l.filter (fun c => !(isSpace c))
  | [] => rfl
  | c :: rest => by
    cases h : isSpace c with
    | true =>
      simpa [List.dropWhile_cons, h, List.filter_cons] using filter_dropWhile_space rest
    | false => simp [List.dropWhile_cons, h]

theorem stripEnd_nil_filter :
    ∀ l : List Char, stripEnd l = [] → l.filter (fun c => !(isSpace c)) = []
  | [], _ => rfl
  | c :: rest, h => by
    cases hr : stripEnd rest with
    | cons a r => simp [stripEnd, hr] at h
    | nil =>
      have hf := stripEnd_nil_filter rest hr
      simp only [stripEnd, hr] at h
      cases hc : isSpace c with
      | false => rw [hc] at h; simp at h
      | true => simp [List.filter_cons, hc, hf]

theorem filter_stripEnd :
    ∀ l : List Char, (stripEnd l).filter (fun c => !(isSpace c)) =
      l.filter (fun c => !(isSpace c))
  | [] => rfl
  | c :: rest => by
    have ih := filter_stripEnd rest
    cases hr : stripEnd rest with
    | nil =>
      rw [hr] at ih
      simp only [List.filter_nil] at ih
      cases hc : isSpace c <;>
        simp [stripEnd, hr, hc, List.filter_cons, ← ih]
    | cons a r =>
      rw [hr] at ih
      simp [stripEnd, hr, List.filter_cons, ih]

theorem filter_pyStrip (l : List Char) :
    (pyStrip l).filter (fun c => !(isSpace c)) = l.filter (fun c => !(isSpace c)) := by
  unfold pyStrip stripStart
  rw [filter_stripEnd, filter_dropWhile_space]

/-- C3: for an input that is present, not whitespace-only and not the null
keyword, normalize_token yields exactly the whitespace-free words of the
trimmed input joined by single sentinel characters; those words carry every
non-whitespace character of the raw input, unchanged and in original order,
and contain no whitespace. -/
theorem C3_normalize_token_collapses_runs (s d : List Char)
    (h1 : pyStrip s ≠ []) (h2 : lowerList (pyStrip s) ≠ nullLit) :
    normalize_token (some s) d = sentinelJoin (wordsSpec (pyStrip s)) ∧
    (wordsSpec (pyStrip s)).flatten = s.filter (fun c => !(isSpace c)) ∧
    (∀ w ∈ wordsSpec (pyStrip s), w ≠ [] ∧ ∀ c ∈ w, isSpace c = false) := by
  refine ⟨?_, ?_, wordsSpec_words_ok _⟩
  · have hmain := (subSpaceRuns_join_aux (pyStrip s).length (pyStrip s) le_rfl
      (pyStrip_lastNotSpace s)).1 (pyStrip_headNotSpace s)
    have hcond : ¬ (pyStrip s = [] ∨ lowerList (pyStrip s) = nullLit) := by
      rintro (h | h)
      · exact h1 h
      · exact h2 h
    simpa [normalize_token, hcond] using hmain
  · rw [wordsSpec_flatten, filter_pyStrip]

/-- C3 witness: a concrete input with leading and trailing whitespace, two
internal whitespace runs and underscores. -/
theorem C3_normalize_token_collapses_runs_witness :
    (pyStrip (lit "  a_b \x09 c__d ") ≠ [] ∧
      lowerList (pyStrip (lit "  a_b \x09 c__d ")) ≠ nullLit) ∧
    (normalize_token (some (lit "  a_b \x09 c__d ")) (lit "D") =
        sentinelJoin (wordsSpec (pyStrip (lit "  a_b \x09 c__d "))) ∧
      (wordsSpec (pyStrip (lit "  a_b \x09 c__d "))).flatten =
        (lit "  a_b \x09 c__d ").filter (fun c => !(isSpace c)) ∧
      (∀ w ∈ wordsSpec (pyStrip (lit "  a_b \x09 c__d ")), w ≠ [] ∧
        ∀ c ∈ w, isSpace c = false)) :=
  ⟨by decide,
   C3_normalize_token_collapses_runs (lit "  a_b \x09 c__d ") (lit "D")
     (by decide) (by decide)⟩

/-- C4: absent, whitespace-only and null-keyword inputs make
normalize_token return the supplied default verbatim. -/
theorem C4_normalize_token_default (s d : List Char) :
    normalize_token none d = d ∧
    (pyStrip s = [] → normalize_token (some s) d = d) ∧
    (lowerList (pyStrip s) = nullLit → normalize_token (some s) d = d) := by
  refine ⟨rfl, fun h => ?_, fun h => ?_⟩ <;> simp [normalize_token, h]

/-- C4 witness: a whitespace-only input and a mixed-case null keyword, with
a default that itself contains whitespace and a sentinel character and is
returned untouched. -/
theorem C4_normalize_token_default_witness :
    (pyStrip (lit "   ") = [] ∧ lowerList (pyStrip (lit " NuLL ")) = nullLit) ∧
    normalize_token none (lit "a | b") = lit "a | b" ∧
    normalize_token (some (lit "   ")) (lit "a | b") = lit "a | b" ∧
    normalize_token (some (lit " NuLL ")) (lit "a | b") = lit "a | b" :=
  ⟨by decide,
   (C4_normalize_token_default (lit "   ") (lit "a | b")).1,
   (C4_normalize_token_default (lit "   ") (lit "a | b")).2.1 (by decide),
   (C4_normalize_token_default (lit " NuLL ") (lit "a | b")).2.2 (by decide)⟩


/-- C5: explicit mode wins; under auto the modern schema is selected
exactly when the lower-cased view name ends with the modern-view suffix. -/
theorem C5_schema_resolver (cfg : Config) :
    (cfg.mode = modernLit → is_station_list_source_view cfg = true) ∧
    (cfg.mode = legacyLit → is_station_list_source_view cfg = false) ∧
    (cfg.mode = autoLit →
      is_station_list_source_view cfg = endsWithLC (lowerList cfg.view) modernLit) := by
  refine ⟨fun h => ?_, fun h => ?_, fun h => ?_⟩
  · simp [is_station_list_source_view, h]
  · have hne : legacyLit ≠ modernLit := by decide
    simp [is_station_list_source_view, h, hne]
  · have hne1 : autoLit ≠ modernLit := by decide
    have hne2 : autoLit ≠ legacyLit := by decide
    simp [is_station_list_source_view, h, hne1, hne2]

def cfgAutoModern : Config :=
  Config.mk (lit "public.Station_List_Source") none (lit "mp") 3600
    (lit "0.0") (lit "0.0") (lit "0.0") false autoLit

def cfgAutoLegacy : Config :=
  Config.mk (lit "public.etat_antennes4") none (lit "mp") 3600
    (lit "0.0") (lit "0.0") (lit "0.0") false autoLit

def cfgExplicitModern : Config :=
  Config.mk (lit "public.etat_antennes4") none (lit "mp") 3600
    (lit "0.0") (lit "0.0") (lit "0.0") false modernLit

def cfgExplicitLegacy : Config :=
  Config.mk (lit "public.station_list_source") none (lit "mp") 3600
    (lit "0.0") (lit "0.0") (lit "0.0") false legacyLit

/-- C5 witness: the four concrete combinations, with explicit mode
overriding the name heuristic and auto classifying by suffix
case-insensitively. -/
theorem C5_schema_resolver_witness :
    (cfgExplicitModern.mode = modernLit ∧ cfgExplicitLegacy.mode = legacyLit ∧
      cfgAutoModern.mode = autoLit ∧ cfgAutoLegacy.mode = autoLit ∧
      endsWithLC (lowerList cfgAutoModern.view) modernLit = true ∧
      endsWithLC (lowerList cfgAutoLegacy.view) modernLit = false) ∧
    is_station_list_source_view cfgExplicitModern = true ∧
    is_station_list_source_view cfgExplicitLegacy = false ∧
    is_station_list_source_view cfgAutoModern = endsWithLC (lowerList cfgAutoModern.view) modernLit ∧
    is_station_list_source_view cfgAutoLegacy = endsWithLC (lowerList cfgAutoLegacy.view) modernLit :=
  ⟨by decide,
   (C5_schema_resolver cfgExplicitModern).1 (by decide),
   (C5_schema_resolver cfgExplicitLegacy).2.1 (by decide),
   (C5_schema_resolver cfgAutoModern).2.2 (by decide),
   (C5_schema_resolver cfgAutoLegacy).2.2 (by decide)⟩

theorem safe_ident_ok (s what : List Char) (h1 : s ≠ [])
    (h2 : s.all allowedChar = true) : safe_ident s what = Except.ok s := by
  unfold safe_ident
  rw [if_pos ⟨h1, h2⟩]

theorem safe_ident_error (s what : List Char)
    (h : ¬ (s ≠ [] ∧ s.all allowedChar = true)) :
    safe_ident s what = Except.error (what, s) := by
  unfold safe_ident
  rw [if_neg h]

/-- C6 (amended): a character outside the allow-list in the view name or
the order-by string makes load_config fail with a validation error, so no
Config value exists for the query builder to consume; a non-empty string of
allow-listed characters passes validation unchanged.  The allow-list
excludes semicolons and parentheses. -/
theorem C6_identifier_allowlist (raw : RawSettings) :
    (allowedChar ';' = false ∧ allowedChar '(' = false ∧ allowedChar ')' = false) ∧
    ((∃ c ∈ raw.view, allowedChar c = false) →
      load_config raw = Except.error (lit "QUERYDB_VIEW", raw.view)) ∧
    (raw.view ≠ [] → raw.view.all allowedChar = true →
      (∃ c ∈ raw.order_by, allowedChar c = false) →
      load_config raw = Except.error (lit "QUERYDB_ORDER_BY", raw.order_by)) ∧
    (raw.view ≠ [] → raw.view.all allowedChar = true →
      raw.order_by ≠ [] → raw.order_by.all allowedChar = true →
      ∃ cfg, load_config raw = Except.ok cfg ∧
        cfg.view = raw.view ∧ cfg.order_by = raw.order_by) := by
  refine ⟨by decide, fun hbad => ?_, fun hv1 hv2 hbad => ?_, fun hv1 hv2 ho1 ho2 => ?_⟩
  · have hna : ¬ (raw.view ≠ [] ∧ raw.view.all allowedChar = true) := by
      rintro ⟨-, hall⟩
      obtain ⟨c, hc, hcf⟩ := hbad
      rw [List.all_eq_true] at hall
      have := hall c hc
      rw [hcf] at this
      exact absurd this (by decide)
    simp [load_config, safe_ident_error raw.view _ hna]
  · have hna : ¬ (raw.order_by ≠ [] ∧ raw.order_by.all allowedChar = true) := by
      rintro ⟨-, hall⟩
      obtain ⟨c, hc, hcf⟩ := hbad
      rw [List.all_eq_true] at hall
      have := hall c hc
      rw [hcf] at this
      exact absurd this (by decide)
    simp [load_config, safe_ident_ok raw.view _ hv1 hv2,
      safe_ident_error raw.order_by _ hna]
  · unfold load_config
    rw [safe_ident_ok raw.view _ hv1 hv2, safe_ident_ok raw.order_by _ ho1 ho2]
    exact ⟨_, rfl, rfl, rfl⟩

/-- C6 counterexample: the empty string consists exclusively of
allow-listed characters (vacuously), yet validation rejects it, because
the pattern requires at least one character; so the claim's second half
fails for the empty string. -/
theorem C6_counterexample :
    (([] : List Char).all allowedChar = true) ∧
    safe_ident [] (lit "QUERYDB_VIEW") ≠ Except.ok [] ∧
    load_config (RawSettings.mk [] none (lit "mp") 3600 (lit "0.0")
      (lit "0.0") (lit "0.0") false (lit "auto")) =
      Except.error (lit "QUERYDB_VIEW", []) := by
  refine ⟨rfl, ?_, rfl⟩
  intro h
  exact absurd h (by simp [safe_ident])

def rawGood : RawSettings :=
  RawSettings.mk (lit "public.station_list_source") none (lit "mp, serial_code_world")
    3600 (lit "0.0") (lit "0.0") (lit "0.0") false (lit "auto")

def rawBadView : RawSettings :=
  RawSettings.mk (lit "public.stations; drop table x") none (lit "mp")
    3600 (lit "0.0") (lit "0.0") (lit "0.0") false (lit "auto")

def rawBadOrder : RawSettings :=
  RawSettings.mk (lit "public.station_list_source") none (lit "mp) (")
    3600 (lit "0.0") (lit "0.0") (lit "0.0") false (lit "auto")

/-- C6 witness: a semicolon in the view name and a parenthesis in the
order-by string each fail configuration load; a well-formed configuration
loads with both strings unchanged. -/
theorem C6_identifier_allowlist_witness :
    ((∃ c ∈ rawBadView.view, allowedChar c = false) ∧
      rawBadOrder.view ≠ [] ∧ rawBadOrder.view.all allowedChar = true ∧
      (∃ c ∈ rawBadOrder.order_by, allowedChar c = false) ∧
      rawGood.view ≠ [] ∧ rawGood.view.all allowedChar = true ∧
      rawGood.order_by ≠ [] ∧ rawGood.order_by.all allowedChar = true) ∧
    load_config rawBadView = Except.error (lit "QUERYDB_VIEW", rawBadView.view) ∧
    load_config rawBadOrder = Except.error (lit "QUERYDB_ORDER_BY", rawBadOrder.order_by) ∧
    (∃ cfg, load_config rawGood = Except.ok cfg ∧
      cfg.view = rawGood.view ∧ cfg.order_by = rawGood.order_by) :=
  ⟨by decide,
   (C6_identifier_allowlist rawBadView).2.1 (by decide),
   (C6_identifier_allowlist rawBadOrder).2.2.1 (by decide) (by decide) (by decide),
   (C6_identifier_allowlist rawGood).2.2.2 (by decide) (by decide) (by decide) (by decide)⟩

/-- C7: the coordinates of a textual legacy ECEF cell are the first three
FLOAT_RE matches found anywhere in the text, in order; the concrete
comma-and-space example parses to its three numeric substrings; and when
fewer than three matches exist the X, Y and Z fields of the formatted
record are all empty strings. -/
theorem C7_parse_ecef :
    (findFloats (lit "1.0, 2.5, -3.25e1") = [lit "1.0", lit "2.5", lit "-3.25e1"]) ∧
    (∀ s a b c rest, findFloats s = a :: b :: c :: rest →
      parse_ecef_xyz (DBVal.str s) = some (a, b, c)) ∧
    (∀ s, (findFloats s).length < 3 → parse_ecef_xyz (DBVal.str s) = none) ∧
    (∀ cfg mp ri rc vr an s, (findFloats s).length < 3 →
      (legacyFields cfg mp ri (DBVal.str s) rc vr an).take 5 =
        [normalize_token (dbOpt mp) [],
         normalize_token (dbOpt ri) (normalize_token (dbOpt mp) []), [], [], []]) := by
  have hnone : ∀ s : List Char, (findFloats s).length < 3 →
      parse_ecef_xyz (DBVal.str s) = none := by
    intro s h
    simp only [parse_ecef_xyz]
    cases hf : findFloats s with
    | nil => rfl
    | cons a t =>
      cases t with
      | nil => rfl
      | cons b t2 =>
        cases t2 with
        | nil => rfl
        | cons c t3 => rw [hf] at h; simp at h; omega
  refine ⟨by decide, fun s a b c rest h => ?_, hnone, fun cfg mp ri rc vr an s h => ?_⟩
  · simp only [parse_ecef_xyz, h]
  · simp [legacyFields, hnone s h]

/-- C7 witness: the comma-separated example feeds the general first-three
rule, and a text with only two numeric tokens leaves the coordinate fields
empty in the formatted record. -/
theorem C7_parse_ecef_witness :
    (findFloats (lit "1.0, 2.5, -3.25e1") = lit "1.0" :: lit "2.5" :: lit "-3.25e1" :: [] ∧
      (findFloats (lit "7toks 8")).length < 3) ∧
    parse_ecef_xyz (DBVal.str (lit "1.0, 2.5, -3.25e1")) =
      some (lit "1.0", lit "2.5", lit "-3.25e1") ∧
    (legacyFields cfgAutoLegacy (DBVal.str (lit "ABC")) DBVal.null
        (DBVal.str (lit "7toks 8")) DBVal.null DBVal.null DBVal.null).take 5 =
      [lit "ABC", lit "ABC", [], [], []] := by
  refine ⟨by decide, ?_, ?_⟩
  · exact (C7_parse_ecef).2.1 (lit "1.0, 2.5, -3.25e1") (lit "1.0") (lit "2.5")
      (lit "-3.25e1") [] (by decide)
  · have := (C7_parse_ecef).2.2.2 cfgAutoLegacy (DBVal.str (lit "ABC")) DBVal.null
      DBVal.null DBVal.null DBVal.null (lit "7toks 8") (by decide)
    simpa [normalize_token] using this


theorem writeRowsAux_count (cfg : Config) :
    ∀ (rows : List (List DBVal)) (acc : List (List Char)) (count : Nat),
      (writeRowsAux cfg rows acc count).1.length + count =
        (writeRowsAux cfg rows acc count).2 + acc.length
  | [], acc, count => by simp [writeRowsAux, Nat.add_comm]
  | row :: rest, acc, count => by
    cases hf : formatRowFields cfg row with
    | some fs =>
      have ih := writeRowsAux_count cfg rest (acc ++ [joinSpace fs]) (count + 1)
      simp only [writeRowsAux, hf]
      simp only [List.length_append, List.length_cons, List.length_nil] at ih
      omega
    | none =>
      have ih := writeRowsAux_count cfg rest acc count
      simpa [writeRowsAux, hf] using ih

theorem formatRowFields_short (cfg : Config) (row : List DBVal)
    (h : row.length < 6) : formatRowFields cfg row = none := by
  have hn : ¬ (11 ≤ row.length ∧ is_station_list_source_view cfg = true) := by
    rintro ⟨h11, -⟩; omega
  simp [formatRowFields, hn, h]

theorem writeRowsAux_skip (cfg : Config) (row : List DBVal)
    (rest : List (List DBVal)) (acc : List (List Char)) (count : Nat)
    (h : row.length < 6) :
    writeRowsAux cfg (row :: rest) acc count = writeRowsAux cfg rest acc count := by
  simp [writeRowsAux, formatRowFields_short cfg row h]

/-- C8: the count write_station_list returns equals the number of data
lines written; a row of fewer than 6 columns produces no record, and the
write loop passes over it leaving both the written lines and the count
untouched. -/
theorem C8_count_and_skip (cfg : Config) (rows : List (List DBVal)) :
    write_station_list_count cfg rows = (dataLines cfg rows).length ∧
    (∀ row : List DBVal, row.length < 6 → formatRowFields cfg row = none) ∧
    (∀ (row : List DBVal) (rest : List (List DBVal)) (acc : List (List Char))
      (count : Nat), row.length < 6 →
        writeRowsAux cfg (row :: rest) acc count = writeRowsAux cfg rest acc count) := by
  refine ⟨?_, fun row h => formatRowFields_short cfg row h,
    fun row rest acc count h => writeRowsAux_skip cfg row rest acc count h⟩
  have h := writeRowsAux_count cfg rows [] 0
  simp only [List.length_nil, Nat.add_zero] at h
  simp [write_station_list_count, dataLines, h]

/-- C8 witness: a batch mixing one well-formed legacy row and one 2-column
row writes exactly one line and returns count 1, the short row being
skipped. -/
theorem C8_count_and_skip_witness :
    ([DBVal.str (lit "x"), DBVal.null] : List DBVal).length < 6 ∧
    formatRowFields cfgAutoLegacy [DBVal.str (lit "x"), DBVal.null] = none ∧
    write_station_list_count cfgAutoLegacy
      [[DBVal.str (lit "ABC"), DBVal.null, DBVal.str (lit "1 2 3"), DBVal.null,
        DBVal.null, DBVal.null],
       [DBVal.str (lit "x"), DBVal.null]] =
      (dataLines cfgAutoLegacy
        [[DBVal.str (lit "ABC"), DBVal.null, DBVal.str (lit "1 2 3"), DBVal.null,
          DBVal.null, DBVal.null],
         [DBVal.str (lit "x"), DBVal.null]]).length ∧
    write_station_list_count cfgAutoLegacy
      [[DBVal.str (lit "ABC"), DBVal.null, DBVal.str (lit "1 2 3"), DBVal.null,
        DBVal.null, DBVal.null],
       [DBVal.str (lit "x"), DBVal.null]] = 1 :=
  ⟨by decide,
   (C8_count_and_skip cfgAutoLegacy []).2.1 [DBVal.str (lit "x"), DBVal.null] (by decide),
   (C8_count_and_skip cfgAutoLegacy
     [[DBVal.str (lit "ABC"), DBVal.null, DBVal.str (lit "1 2 3"), DBVal.null,
       DBVal.null, DBVal.null],
      [DBVal.str (lit "x"), DBVal.null]]).1,
   by decide⟩

/-- C10: under the modern schema, a row of at least 6 but fewer than 11
columns falls through to the legacy branch: its first six columns are
formatted as legacy columns and the three antenna-offset fields come
straight from the configured defaults. -/
theorem C10_modern_short_row_legacy_path (cfg : Config)
    (c0 c1 c2 c3 c4 c5 : DBVal) (rest : List DBVal)
    (_hm : is_station_list_source_view cfg = true)
    (hlen : (c0 :: c1 :: c2 :: c3 :: c4 :: c5 :: rest).length < 11) :
    formatRowFields cfg (c0 :: c1 :: c2 :: c3 :: c4 :: c5 :: rest) =
      some (legacyFields cfg c0 c1 c2 c3 c4 c5) ∧
    (legacyFields cfg c0 c1 c2 c3 c4 c5).drop 8 =
      [cfg.ant_h_default, cfg.ant_e_default, cfg.ant_n_default] := by
  constructor
  · have hn : ¬ (11 ≤ (c0 :: c1 :: c2 :: c3 :: c4 :: c5 :: rest).length ∧
        is_station_list_source_view cfg = true) := by
      rintro ⟨h11, -⟩; omega
    have h6 : ¬ ((c0 :: c1 :: c2 :: c3 :: c4 :: c5 :: rest).length < 6) := by
      simp only [List.length_cons]; omega
    unfold formatRowFields
    rw [if_neg hn, if_neg h6]
  · rfl

/-- C10 witness: a 7-column row under an explicitly modern configuration is
formatted through the legacy branch with the configured defaults in the
last three fields. -/
theorem C10_modern_short_row_legacy_path_witness :
    (is_station_list_source_view cfgExplicitModern = true ∧
      ([DBVal.str (lit "ABC"), DBVal.null, DBVal.str (lit "1 2 3"), DBVal.null,
        DBVal.str (lit "v1"), DBVal.str (lit "A"), DBVal.null] : List DBVal).length < 11) ∧
    formatRowFields cfgExplicitModern
      [DBVal.str (lit "ABC"), DBVal.null, DBVal.str (lit "1 2 3"), DBVal.null,
       DBVal.str (lit "v1"), DBVal.str (lit "A"), DBVal.null] =
      some (legacyFields cfgExplicitModern (DBVal.str (lit "ABC")) DBVal.null
        (DBVal.str (lit "1 2 3")) DBVal.null (DBVal.str (lit "v1")) (DBVal.str (lit "A"))) ∧
    (legacyFields cfgExplicitModern (DBVal.str (lit "ABC")) DBVal.null
      (DBVal.str (lit "1 2 3")) DBVal.null (DBVal.str (lit "v1"))
      (DBVal.str (lit "A"))).drop 8 =
      [cfgExplicitModern.ant_h_default, cfgExplicitModern.ant_e_default,
       cfgExplicitModern.ant_n_default] :=
  ⟨by decide,
   (C10_modern_short_row_legacy_path cfgExplicitModern (DBVal.str (lit "ABC")) DBVal.null
     (DBVal.str (lit "1 2 3")) DBVal.null (DBVal.str (lit "v1")) (DBVal.str (lit "A"))
     [DBVal.null] (by decide) (by decide)).1,
   (C10_modern_short_row_legacy_path cfgExplicitModern (DBVal.str (lit "ABC")) DBVal.null
     (DBVal.str (lit "1 2 3")) DBVal.null (DBVal.str (lit "v1")) (DBVal.str (lit "A"))
     [DBVal.null] (by decide) (by decide)).2⟩

theorem stepFS_out (st : FS) (op : FileOp) (h : op ≠ FileOp.replaceTmpOut) :
    (stepFS st op).outFile = st.outFile := by
  cases op with
  | openTruncTmp => rfl
  | writeTmp s => cases h2 : st.tmpFile <;> simp [stepFS, h2]
  | replaceTmpOut => exact absurd rfl h

theorem runFS_out_no_replace :
    ∀ (ops : List FileOp) (st : FS), FileOp.replaceTmpOut ∉ ops →
      (runFS st ops).outFile = st.outFile
  | [], _, _ => rfl
  | op :: ops, st, h => by
    have h1 : op ≠ FileOp.replaceTmpOut := by
      intro he; exact h (he ▸ List.mem_cons_self op ops)
    have h2 : FileOp.replaceTmpOut ∉ ops := fun hm => h (List.mem_cons_of_mem op hm)
    calc (runFS st (op :: ops)).outFile
        = (runFS (stepFS st op) ops).outFile := rfl
      _ = (stepFS st op).outFile := runFS_out_no_replace ops (stepFS st op) h2
      _ = st.outFile := stepFS_out st op h1

theorem runWrites :
    ∀ (lines : List (List Char)) (st : FS) (t : List Char), st.tmpFile = some t →
      runFS st (lines.map (fun l => FileOp.writeTmp (l ++ [nlChar]))) =
        FS.mk (some (t ++ (lines.map (fun l => l ++ [nlChar])).flatten)) st.outFile
  | [], st, t, h => by cases st with | mk a b => simp at h; simp [runFS, h]
  | line :: rest, st, t, h => by
    have hstep : stepFS st (FileOp.writeTmp (line ++ [nlChar])) =
        FS.mk (some (t ++ (line ++ [nlChar]))) st.outFile := by
      simp [stepFS, h]
    have ih := runWrites rest (FS.mk (some (t ++ (line ++ [nlChar]))) st.outFile)
      (t ++ (line ++ [nlChar])) rfl
    calc runFS st ((line :: rest).map (fun l => FileOp.writeTmp (l ++ [nlChar])))
        = runFS (stepFS st (FileOp.writeTmp (line ++ [nlChar])))
            (rest.map (fun l => FileOp.writeTmp (l ++ [nlChar]))) := rfl
      _ = runFS (FS.mk (some (t ++ (line ++ [nlChar]))) st.outFile)
            (rest.map (fun l => FileOp.writeTmp (l ++ [nlChar]))) := by rw [hstep]
      _ = FS.mk (some (t ++ ((line :: rest).map (fun l => l ++ [nlChar])).flatten))
            st.outFile := by
          rw [ih]; simp [List.append_assoc]

theorem replace_not_mem_init (cfg : Config) (ts : List Char)
    (rows : List (List DBVal)) :
    FileOp.replaceTmpOut ∉ FileOp.openTruncTmp ::
      ((headerLines cfg ts ++ dataLines cfg rows).map
        (fun l => FileOp.writeTmp (l ++ [nlChar]))) := by
  intro h
  rcases List.mem_cons.mp h with he | hm
  · exact FileOp.noConfusion he
  · obtain ⟨l, -, hl⟩ := List.mem_map.mp hm
    exact FileOp.noConfusion hl

/-- C9: write_station_list touches only the temporary sibling file until
its final atomic rename; stopping the operation trace anywhere before the
end leaves the target file exactly as it was, and the completed trace
installs precisely the full header-plus-data content at the target. -/
theorem C9_atomic_write (cfg : Config) (ts : List Char)
    (rows : List (List DBVal)) (st : FS) :
    (∀ k, k < (write_station_list_ops cfg ts rows).length →
      (runFS st ((write_station_list_ops cfg ts rows).take k)).outFile = st.outFile) ∧
    (runFS st (write_station_list_ops cfg ts rows)).outFile =
      some (fileContent cfg ts rows) := by
  constructor
  · intro k hk
    have hsplit : write_station_list_ops cfg ts rows =
        (FileOp.openTruncTmp ::
          ((headerLines cfg ts ++ dataLines cfg rows).map
            (fun l => FileOp.writeTmp (l ++ [nlChar])))) ++ [FileOp.replaceTmpOut] := by
      simp [write_station_list_ops]
    have hlen : k ≤ (FileOp.openTruncTmp ::
        ((headerLines cfg ts ++ dataLines cfg rows).map
          (fun l => FileOp.writeTmp (l ++ [nlChar])))).length := by
      rw [hsplit] at hk
      simp only [List.length_append, List.length_cons, List.length_nil] at hk ⊢
      omega
    have htake : (write_station_list_ops cfg ts rows).take k =
        (FileOp.openTruncTmp ::
          ((headerLines cfg ts ++ dataLines cfg rows).map
            (fun l => FileOp.writeTmp (l ++ [nlChar])))).take k := by
      rw [hsplit, List.take_append_eq_append_take, Nat.sub_eq_zero_of_le hlen]
      simp
    rw [htake]
    refine runFS_out_no_replace _ st (fun hmem => ?_)
    exact replace_not_mem_init cfg ts rows (List.mem_of_mem_take hmem)
  · have h1 : runFS st (write_station_list_ops cfg ts rows) =
        stepFS (runFS (FS.mk (some []) st.outFile)
          ((headerLines cfg ts ++ dataLines cfg rows).map
            (fun l => FileOp.writeTmp (l ++ [nlChar])))) FileOp.replaceTmpOut := by
      simp only [write_station_list_ops, runFS, List.foldl_cons, List.foldl_append,
        List.foldl_nil]
      rfl
    rw [h1, runWrites (headerLines cfg ts ++ dataLines cfg rows)
      (FS.mk (some []) st.outFile) [] rfl]
    simp [stepFS, fileContent]

def tsTest : List Char := lit "2026-01-01T00:00:00Z"

def rowsTest : List (List DBVal) :=
  [[DBVal.str (lit "ABC"), DBVal.null, DBVal.str (lit "1 2 3"), DBVal.null,
    DBVal.null, DBVal.null]]

def stTest : FS := FS.mk none (some (lit "previous contents"))

/-- C9 witness: with a pre-existing target file, a trace cut short after
the open and first write leaves the target unchanged, while the full trace
replaces it with the complete new content. -/
theorem C9_atomic_write_witness :
    (2 < (write_station_list_ops cfgAutoLegacy tsTest rowsTest).length) ∧
    (runFS stTest ((write_station_list_ops cfgAutoLegacy tsTest rowsTest).take 2)).outFile =
      stTest.outFile ∧
    (runFS stTest (write_station_list_ops cfgAutoLegacy tsTest rowsTest)).outFile =
      some (fileContent cfgAutoLegacy tsTest rowsTest) :=
  ⟨by decide,
   (C9_atomic_write cfgAutoLegacy tsTest rowsTest stTest).1 2 (by decide),
   (C9_atomic_write cfgAutoLegacy tsTest rowsTest stTest).2⟩


/-- True when the token contains no whitespace character. -/
def noWS (l : List Char) : Bool := l.all (fun c => !(isSpace c))

theorem isSpace_SPACE_ENC : isSpace SPACE_ENC = false := by decide

theorem subSpaceRuns_noWS : ∀ l : List Char, noWS (subSpaceRuns l) = true
  | [] => rfl
  | [c] => by
    cases h : isSpace c with
    | true => simp [subSpaceRuns, h, noWS, isSpace_SPACE_ENC]
    | false => simp [subSpaceRuns, h, noWS]
  | c1 :: c2 :: rest => by
    have ih := subSpaceRuns_noWS (c2 :: rest)
    simp only [noWS] at ih ⊢
    cases h1 : isSpace c1 with
    | true =>
      cases h2 : isSpace c2 with
      | true => simpa [subSpaceRuns, h1, h2] using ih
      | false => simp [subSpaceRuns, h1, h2, ih, isSpace_SPACE_ENC]
    | false => simp [subSpaceRuns, h1, ih]

theorem subSpaceRuns_ne_nil : ∀ l : List Char, l ≠ [] → subSpaceRuns l ≠ []
  | [], h => absurd rfl h
  | [c], _ => by cases h : isSpace c <;> simp [subSpaceRuns, h]
  | c1 :: c2 :: rest, _ => by
    have ih := subSpaceRuns_ne_nil (c2 :: rest) (by simp)
    cases h1 : isSpace c1 with
    | true =>
      cases h2 : isSpace c2 with
      | true => simpa [subSpaceRuns, h1, h2] using ih
      | false => simp [subSpaceRuns, h1, h2]
    | false => simp [subSpaceRuns, h1]

theorem normalize_token_noWS (s : Option (List Char)) (d : List Char)
    (hd : noWS d = true) : noWS (normalize_token s d) = true := by
  cases s with
  | none => exact hd
  | some s0 =>
    by_cases h : pyStrip s0 = [] ∨ lowerList (pyStrip s0) = nullLit
    · simpa [normalize_token, h] using hd
    · simp only [normalize_token]
      rw [if_neg h]
      exact subSpaceRuns_noWS _

theorem normalize_token_ne_nil (s : Option (List Char)) (d : List Char)
    (hd : d ≠ []) : normalize_token s d ≠ [] := by
  cases s with
  | none => exact hd
  | some s0 =>
    by_cases h : pyStrip s0 = [] ∨ lowerList (pyStrip s0) = nullLit
    · simpa [normalize_token, h] using hd
    · simp only [normalize_token]
      rw [if_neg h]
      exact subSpaceRuns_ne_nil _ (fun he => h (Or.inl he))

theorem digit_noWS (c : Char) (h : c.isDigit = true) : isSpace c = false := by
  cases hs : isSpace c with
  | false => rfl
  | true =>
    simp only [isSpace, Bool.or_eq_true, decide_eq_true_eq] at hs
    rcases hs with ((((rfl | rfl) | rfl) | rfl) | rfl) | rfl <;>
      exact absurd h (by decide)

theorem takeWhile_digits_noWS (l : List Char) :
    noWS (l.takeWhile Char.isDigit) = true := by
  rw [noWS, List.all_eq_true]
  intro c hc
  have hd := List.mem_takeWhile_imp hc
  simp [digit_noWS c hd]

theorem matchFrac_noWS (l : List Char) : noWS (matchFrac l).1 = true := by
  match l with
  | [] => rfl
  | c :: r =>
    by_cases hc : c = '.'
    · cases ht : r.takeWhile Char.isDigit with
      | nil =>
        simp only [matchFrac]
        rw [if_pos hc, ht]
        rfl
      | cons d ds =>
        have hall := takeWhile_digits_noWS r
        rw [ht] at hall
        simp only [matchFrac]
        rw [if_pos hc, ht]
        have hstep : noWS ('.' :: d :: ds) =
            ((!(isSpace '.')) && noWS (d :: ds)) := rfl
        rw [hstep, hall]
        decide
    · simp only [matchFrac]
      rw [if_neg hc]
      rfl

theorem matchExp_noWS (l : List Char) : noWS (matchExp l).1 = true := by
  match l with
  | [] => rfl
  | [c] => rfl
  | e :: s :: r =>
    by_cases he : e = 'e' ∨ e = 'E'
    · by_cases hs : s = '-' ∨ s = '+'
      · cases ht : r.takeWhile Char.isDigit with
        | nil =>
          simp only [matchExp]
          rw [if_pos he, if_pos hs, ht]
          rfl
        | cons d ds =>
          have hall := takeWhile_digits_noWS r
          rw [ht] at hall
          simp only [matchExp]
          rw [if_pos he, if_pos hs, ht]
          have hstep : noWS (e :: s :: d :: ds) =
              ((!(isSpace e)) && ((!(isSpace s)) && noWS (d :: ds))) := rfl
          rw [hstep, hall]
          rcases he with rfl | rfl <;> rcases hs with rfl | rfl <;> decide
      · cases ht : (s :: r).takeWhile Char.isDigit with
        | nil =>
          simp only [matchExp]
          rw [if_pos he, if_neg hs, ht]
          rfl
        | cons d ds =>
          have hall := takeWhile_digits_noWS (s :: r)
          rw [ht] at hall
          simp only [matchExp]
          rw [if_pos he, if_neg hs, ht]
          have hstep : noWS (e :: d :: ds) =
              ((!(isSpace e)) && noWS (d :: ds)) := rfl
          rw [hstep, hall]
          rcases he with rfl | rfl <;> decide
    · simp only [matchExp]
      rw [if_neg he]
      rfl

theorem matchAfterSign_noWS (sgn l1 m r : List Char)
    (hs : noWS sgn = true) (h : matchAfterSign sgn l1 = some (m, r)) :
    noWS m = true := by
  simp only [matchAfterSign] at h
  cases ht : l1.takeWhile Char.isDigit with
  | nil => rw [ht] at h; exact absurd h (by simp)
  | cons d ds =>
    rw [ht] at h
    simp only [Option.some.injEq, Prod.mk.injEq] at h
    obtain ⟨hm, -⟩ := h
    subst hm
    have h1 := takeWhile_digits_noWS l1
    rw [ht] at h1
    have h2 := matchFrac_noWS (l1.dropWhile Char.isDigit)
    have h3 := matchExp_noWS (matchFrac (l1.dropWhile Char.isDigit)).2
    simp only [noWS, List.all_append] at hs h1 h2 h3 ⊢
    simp [hs, h1, h2, h3]

theorem matchFloatAt_noWS (l m r : List Char)
    (h : matchFloatAt l = some (m, r)) : noWS m = true := by
  match l with
  | [] => exact absurd h (by simp [matchFloatAt])
  | c :: rest =>
    simp only [matchFloatAt] at h
    by_cases hc : c = '-' ∨ c = '+'
    · rw [if_pos hc] at h
      refine matchAfterSign_noWS [c] rest m r ?_ h
      rcases hc with rfl | rfl <;> decide
    · rw [if_neg hc] at h
      exact matchAfterSign_noWS [] (c :: rest) m r (by decide) h

theorem findFloatsAux_noWS :
    ∀ (fuel : Nat) (l : List Char) (m : List Char),
      m ∈ findFloatsAux fuel l → noWS m = true
  | 0, _, m, h => absurd h (by simp [findFloatsAux])
  | _ + 1, [], m, h => absurd h (by simp [findFloatsAux])
  | fuel + 1, c :: rest, m, h => by
    simp only [findFloatsAux] at h
    cases hm : matchFloatAt (c :: rest) with
    | none =>
      rw [hm] at h
      exact findFloatsAux_noWS fuel rest m h
    | some p =>
      rw [hm] at h
      rcases List.mem_cons.mp h with rfl | h2
      · exact matchFloatAt_noWS (c :: rest) p.1 p.2 (by rw [hm])
      · exact findFloatsAux_noWS fuel p.2 m h2

theorem findFloats_noWS (l m : List Char) (h : m ∈ findFloats l) :
    noWS m = true := findFloatsAux_noWS l.length l m h

theorem parse_ecef_xyz_noWS (ec : DBVal) (a b c : List Char)
    (h : parse_ecef_xyz ec = some (a, b, c)) :
    noWS a = true ∧ noWS b = true ∧ noWS c = true := by
  cases ec with
  | null => exact absurd h (by simp [parse_ecef_xyz])
  | str s =>
    simp only [parse_ecef_xyz] at h
    cases hf : findFloats s with
    | nil => rw [hf] at h; exact absurd h (by simp)
    | cons x t =>
      cases t with
      | nil => rw [hf] at h; exact absurd h (by simp)
      | cons y t2 =>
        cases t2 with
        | nil => rw [hf] at h; exact absurd h (by simp)
        | cons z t3 =>
          rw [hf] at h
          simp only [Option.some.injEq, Prod.mk.injEq] at h
          obtain ⟨rfl, rfl, rfl⟩ := h
          refine ⟨findFloats_noWS s _ ?_, findFloats_noWS s _ ?_,
            findFloats_noWS s _ ?_⟩ <;> rw [hf] <;> simp


theorem legacyFields_noWS (cfg : Config)
    (hh : noWS cfg.ant_h_default = true) (hee : noWS cfg.ant_e_default = true)
    (hnn : noWS cfg.ant_n_default = true) (mp ri ec rc vr an : DBVal) :
    ∀ f ∈ legacyFields cfg mp ri ec rc vr an, noWS f = true := by
  intro f hf
  have hmp : noWS (normalize_token (dbOpt mp) []) = true :=
    normalize_token_noWS _ _ rfl
  have hri := normalize_token_noWS (dbOpt ri) (normalize_token (dbOpt mp) []) hmp
  have hrc := normalize_token_noWS (dbOpt rc) (lit "UNKNOWN") (by decide)
  have hvr := normalize_token_noWS (dbOpt vr) (lit "UNKNOWN") (by decide)
  have han := normalize_token_noWS (dbOpt an) (lit "NONE|NONE") (by decide)
  cases hp : parse_ecef_xyz ec with
  | none =>
    simp only [legacyFields, hp, List.mem_cons, List.not_mem_nil, or_false] at hf
    rcases hf with rfl | rfl | rfl | rfl | rfl | rfl | rfl | rfl | rfl | rfl | rfl <;>
      first
        | exact hmp | exact hri | exact hrc | exact hvr | exact han
        | exact hh | exact hee | exact hnn | rfl
  | some t =>
    obtain ⟨a, b, c⟩ := t
    obtain ⟨ha, hb, hc⟩ := parse_ecef_xyz_noWS ec a b c hp
    simp only [legacyFields, hp, List.mem_cons, List.not_mem_nil, or_false] at hf
    rcases hf with rfl | rfl | rfl | rfl | rfl | rfl | rfl | rfl | rfl | rfl | rfl <;>
      first
        | exact hmp | exact hri | exact ha | exact hb | exact hc
        | exact hrc | exact hvr | exact han | exact hh | exact hee | exact hnn

theorem legacyFields_drop5_ne_nil (cfg : Config)
    (hh : cfg.ant_h_default ≠ []) (hee : cfg.ant_e_default ≠ [])
    (hnn : cfg.ant_n_default ≠ []) (mp ri ec rc vr an : DBVal) :
    ∀ f ∈ (legacyFields cfg mp ri ec rc vr an).drop 5, f ≠ [] := by
  intro f hf
  have hrc := normalize_token_ne_nil (dbOpt rc) (lit "UNKNOWN") (by decide)
  have hvr := normalize_token_ne_nil (dbOpt vr) (lit "UNKNOWN") (by decide)
  have han := normalize_token_ne_nil (dbOpt an) (lit "NONE|NONE") (by decide)
  cases hp : parse_ecef_xyz ec with
  | none =>
    simp only [legacyFields, hp, List.drop_succ_cons, List.drop_zero,
      List.mem_cons, List.not_mem_nil, or_false] at hf
    rcases hf with rfl | rfl | rfl | rfl | rfl | rfl <;>
      first | exact hrc | exact hvr | exact han | exact hh | exact hee | exact hnn
  | some t =>
    obtain ⟨a, b, c⟩ := t
    simp only [legacyFields, hp, List.drop_succ_cons, List.drop_zero,
      List.mem_cons, List.not_mem_nil, or_false] at hf
    rcases hf with rfl | rfl | rfl | rfl | rfl | rfl <;>
      first | exact hrc | exact hvr | exact han | exact hh | exact hee | exact hnn

theorem legacyFields_take2_ne_nil (cfg : Config) (mp ri ec rc vr an : DBVal)
    (hmp : normalize_token (dbOpt mp) [] ≠ []) :
    ∀ f ∈ (legacyFields cfg mp ri ec rc vr an).take 2, f ≠ [] := by
  intro f hf
  simp only [legacyFields, List.take_succ_cons, List.take_zero,
    List.mem_cons, List.not_mem_nil, or_false] at hf
  rcases hf with rfl | rfl
  · exact hmp
  · exact normalize_token_ne_nil _ _ hmp

theorem modernFields_noWS (cfg : Config)
    (hh : noWS cfg.ant_h_default = true) (hee : noWS cfg.ant_e_default = true)
    (hnn : noWS cfg.ant_n_default = true) (mp ri x y z rt rv at0 ah ae an : DBVal)
    (hx : noWS (format_float x) = true) (hy : noWS (format_float y) = true)
    (hz : noWS (format_float z) = true) :
    ∀ f ∈ modernFields cfg mp ri x y z rt rv at0 ah ae an, noWS f = true := by
  intro f hf
  have hmp : noWS (normalize_token (dbOpt mp) []) = true :=
    normalize_token_noWS _ _ rfl
  have hri := normalize_token_noWS (dbOpt ri) (normalize_token (dbOpt mp) []) hmp
  have hrt := normalize_token_noWS (dbOpt rt) (lit "UNKNOWN") (by decide)
  have hrv := normalize_token_noWS (dbOpt rv) (lit "UNKNOWN") (by decide)
  have hat := normalize_token_noWS (dbOpt at0) (lit "NONE|NONE") (by decide)
  have hah := normalize_token_noWS (dbOpt ah) cfg.ant_h_default hh
  have hae := normalize_token_noWS (dbOpt ae) cfg.ant_e_default hee
  have han := normalize_token_noWS (dbOpt an) cfg.ant_n_default hnn
  simp only [modernFields, List.mem_cons, List.not_mem_nil, or_false] at hf
  rcases hf with rfl | rfl | rfl | rfl | rfl | rfl | rfl | rfl | rfl | rfl | rfl <;>
    first
      | exact hmp | exact hri | exact hx | exact hy | exact hz
      | exact hrt | exact hrv | exact hat | exact hah | exact hae | exact han

theorem modernFields_drop5_ne_nil (cfg : Config)
    (hh : cfg.ant_h_default ≠ []) (hee : cfg.ant_e_default ≠ [])
    (hnn : cfg.ant_n_default ≠ []) (mp ri x y z rt rv at0 ah ae an : DBVal) :
    ∀ f ∈ (modernFields cfg mp ri x y z rt rv at0 ah ae an).drop 5, f ≠ [] := by
  intro f hf
  have hrt := normalize_token_ne_nil (dbOpt rt) (lit "UNKNOWN") (by decide)
  have hrv := normalize_token_ne_nil (dbOpt rv) (lit "UNKNOWN") (by decide)
  have hat := normalize_token_ne_nil (dbOpt at0) (lit "NONE|NONE") (by decide)
  have hah := normalize_token_ne_nil (dbOpt ah) cfg.ant_h_default hh
  have hae := normalize_token_ne_nil (dbOpt ae) cfg.ant_e_default hee
  have han := normalize_token_ne_nil (dbOpt an) cfg.ant_n_default hnn
  simp only [modernFields, List.drop_succ_cons, List.drop_zero,
    List.mem_cons, List.not_mem_nil, or_false] at hf
  rcases hf with rfl | rfl | rfl | rfl | rfl | rfl <;>
    first | exact hrt | exact hrv | exact hat | exact hah | exact hae | exact han

theorem modernFields_take2_ne_nil (cfg : Config)
    (mp ri x y z rt rv at0 ah ae an : DBVal)
    (hmp : normalize_token (dbOpt mp) [] ≠ []) :
    ∀ f ∈ (modernFields cfg mp ri x y z rt rv at0 ah ae an).take 2, f ≠ [] := by
  intro f hf
  simp only [modernFields, List.take_succ_cons, List.take_zero,
    List.mem_cons, List.not_mem_nil, or_false] at hf
  rcases hf with rfl | rfl
  · exact hmp
  · exact normalize_token_ne_nil _ _ hmp

/-- C1 counterexample: a written legacy row whose ECEF cell is null has
empty X, Y and Z fields in its record, so not every field of a written
line is non-empty. -/
theorem C1_counterexample :
    formatRowFields cfgAutoLegacy
      [DBVal.str (lit "ABC"), DBVal.null, DBVal.null, DBVal.null,
       DBVal.str (lit "v1"), DBVal.str (lit "ANT1")] =
      some [lit "ABC", lit "ABC", [], [], [], lit "UNKNOWN", lit "v1",
        lit "ANT1", lit "0.0", lit "0.0", lit "0.0"] ∧
    ([] : List Char) ∈ [lit "ABC", lit "ABC", ([] : List Char), [], [],
      lit "UNKNOWN", lit "v1", lit "ANT1", lit "0.0", lit "0.0", lit "0.0"] := by
  exact ⟨by decide, by decide⟩

/-- C1 (amended): every field of a written record is free of literal
whitespace — given that the configured antenna-offset defaults are and, on
the modern path, that the trimmed stringified coordinates are — and every
field except mountpoint, rinex-id and the coordinates is non-empty given
non-empty defaults; mountpoint and rinex-id are non-empty whenever the
mountpoint value normalizes to a non-empty token; X, Y and Z may be empty
(unparseable legacy ECEF, null modern coordinates). -/
theorem C1_fields_invariant (cfg : Config)
    (hh1 : cfg.ant_h_default ≠ []) (hh2 : noWS cfg.ant_h_default = true)
    (he1 : cfg.ant_e_default ≠ []) (he2 : noWS cfg.ant_e_default = true)
    (hn1 : cfg.ant_n_default ≠ []) (hn2 : noWS cfg.ant_n_default = true) :
    (∀ mp ri ec rc vr an : DBVal,
      (legacyFields cfg mp ri ec rc vr an).length = 11 ∧
      (∀ f ∈ legacyFields cfg mp ri ec rc vr an, noWS f = true) ∧
      (∀ f ∈ (legacyFields cfg mp ri ec rc vr an).drop 5, f ≠ []) ∧
      (normalize_token (dbOpt mp) [] ≠ [] →
        ∀ f ∈ (legacyFields cfg mp ri ec rc vr an).take 2, f ≠ [])) ∧
    (∀ mp ri x y z rt rv at0 ah ae an : DBVal,
      noWS (format_float x) = true → noWS (format_float y) = true →
      noWS (format_float z) = true →
      (modernFields cfg mp ri x y z rt rv at0 ah ae an).length = 11 ∧
      (∀ f ∈ modernFields cfg mp ri x y z rt rv at0 ah ae an, noWS f = true) ∧
      (∀ f ∈ (modernFields cfg mp ri x y z rt rv at0 ah ae an).drop 5, f ≠ []) ∧
      (normalize_token (dbOpt mp) [] ≠ [] →
        ∀ f ∈ (modernFields cfg mp ri x y z rt rv at0 ah ae an).take 2, f ≠ [])) := by
  constructor
  · intro mp ri ec rc vr an
    exact ⟨rfl, legacyFields_noWS cfg hh2 he2 hn2 mp ri ec rc vr an,
      legacyFields_drop5_ne_nil cfg hh1 he1 hn1 mp ri ec rc vr an,
      fun hmp => legacyFields_take2_ne_nil cfg mp ri ec rc vr an hmp⟩
  · intro mp ri x y z rt rv at0 ah ae an hx hy hz
    exact ⟨rfl, modernFields_noWS cfg hh2 he2 hn2 mp ri x y z rt rv at0 ah ae an hx hy hz,
      modernFields_drop5_ne_nil cfg hh1 he1 hn1 mp ri x y z rt rv at0 ah ae an,
      fun hmp => modernFields_take2_ne_nil cfg mp ri x y z rt rv at0 ah ae an hmp⟩

/-- C1 witness: a legacy row with an embedded space in the mountpoint, an
unparseable ECEF cell and a spaced antenna descriptor still yields eleven
whitespace-free fields with the tail fields non-empty. -/
theorem C1_fields_invariant_witness :
    (cfgAutoLegacy.ant_h_default ≠ [] ∧ noWS cfgAutoLegacy.ant_h_default = true ∧
      cfgAutoLegacy.ant_e_default ≠ [] ∧ noWS cfgAutoLegacy.ant_e_default = true ∧
      cfgAutoLegacy.ant_n_default ≠ [] ∧ noWS cfgAutoLegacy.ant_n_default = true) ∧
    (∀ f ∈ legacyFields cfgAutoLegacy (DBVal.str (lit "AB C")) DBVal.null
        (DBVal.str (lit "no coords here")) DBVal.null DBVal.null
        (DBVal.str (lit "TRM 57971.00 NONE")), noWS f = true) ∧
    (∀ f ∈ (legacyFields cfgAutoLegacy (DBVal.str (lit "AB C")) DBVal.null
        (DBVal.str (lit "no coords here")) DBVal.null DBVal.null
        (DBVal.str (lit "TRM 57971.00 NONE"))).drop 5, f ≠ []) :=
  ⟨by decide,
   ((C1_fields_invariant cfgAutoLegacy (by decide) (by decide) (by decide)
      (by decide) (by decide) (by decide)).1 _ _ _ _ _ _).2.1,
   ((C1_fields_invariant cfgAutoLegacy (by decide) (by decide) (by decide)
      (by decide) (by decide) (by decide)).1 _ _ _ _ _ _).2.2.1⟩

def rowC2 : List DBVal :=
  [DBVal.str (lit "ABC"), DBVal.null, DBVal.str (lit "1.1 2.2 3.3"), DBVal.null,
   DBVal.str (lit "v1"), DBVal.str (lit "TRM;NONE")]

/-- C2 counterexample: the antenna descriptor of the scenario row contains
no whitespace, so no sentinel encoding happens and the produced line is
not the one the claim states. -/
theorem C2_counterexample :
    (formatRowFields cfgAutoLegacy rowC2).map joinSpace ≠
      some (lit "ABC ABC 1.1 2.2 3.3 UNKNOWN v1 TRM|;|NONE 0.0 0.0 0.0") := by
  decide

/-- C2 (amended): the scenario row produces the line with the antenna
descriptor passed through verbatim, since it contains no internal
whitespace to encode. -/
theorem C2_scenario_line :
    (formatRowFields cfgAutoLegacy rowC2).map joinSpace =
      some (lit "ABC ABC 1.1 2.2 3.3 UNKNOWN v1 TRM;NONE 0.0 0.0 0.0") := by
  decide

/-- Sentinel encoding does occur once the antenna descriptor carries real
internal whitespace around its separator. -/
theorem C2_scenario_line_spaced_antenna :
    (formatRowFields cfgAutoLegacy
      [DBVal.str (lit "ABC"), DBVal.null, DBVal.str (lit "1.1 2.2 3.3"), DBVal.null,
       DBVal.str (lit "v1"), DBVal.str (lit "TRM ; NONE")]).map joinSpace =
      some (lit "ABC ABC 1.1 2.2 3.3 UNKNOWN v1 TRM|;|NONE 0.0 0.0 0.0") := by
  decide


end QueryDb
